import Mathlib

set_option maxRecDepth 100000

/-!
Verification of the coinut REST API client (`coinut_api.py`).

The Python source is shallowly embedded: Python dicts become association
lists that keep insertion order, `json.dumps` becomes `dumps`, the
`"%.8f"` printf conversion becomes `pyFormat8` over the rationals,
`random.randint` becomes `randint` with the randomness injected through a
seed argument, HMAC-SHA256 (Python's `hmac`/`hashlib`) is implemented in
full, and the HTTP layer is abstracted as a function from requests to
JSON responses.
-/

/-- Decimal digit characters, used to render numbers. -/
def decDigitChars : List Char := "0123456789".data

/-- Character of the decimal digit `d` (for `d < 10`). -/
def digitChar (d : Nat) : Char := decDigitChars.getD d '0'

/-- Decimal digits of `n`, least significant first, driven by a fuel
argument so the recursion stays a plain `Nat.rec` the kernel can unfold
lazily. -/
def natDigitsRev (fuel : Nat) : Nat → List Nat :=
  Nat.rec (motive := fun _ => Nat → List Nat)
    (fun _ => [])
    (fun _ ih n => if n = 0 then [] else n % 10 :: ih (n / 10))
    fuel

/-- Decimal rendering of a natural number as a list of digit characters,
most significant first, with `"0"` for zero — as `"%d"` renders it. -/
def natToDec (n : Nat) : List Char :=
  if n = 0 then ['0'] else ((natDigitsRev n n).reverse).map digitChar

/-- Decimal rendering of an integer, with a leading minus sign when
negative. -/
def intToDec (n : Int) : List Char :=
  (if n < 0 then ['-'] else []) ++ natToDec n.natAbs

/-- Left padding of a digit string with `'0'` up to width `k`. -/
def padZeros (k : Nat) (ds : List Char) : List Char :=
  List.replicate (k - ds.length) '0' ++ ds

/-- JSON values as produced by the client: strings, integers, arrays and
objects.  Objects are association lists in insertion order, matching the
Python dicts the source builds. -/
inductive Json where
  | str : String → Json
  | int : Int → Json
  | arr : List Json → Json
  | obj : List (String × Json) → Json

/-- Escape of one character inside a JSON string literal, as `json.dumps`
does for the backslash and the double quote (the only special characters
this client can produce). -/
def escChar (c : Char) : List Char :=
  if c = '\\' then ['\\', '\\']
  else if c = '"' then ['\\', '"'] else [c]

/-- Serialization of a string as a JSON string literal. -/
def jstring (s : String) : String :=
  String.mk ('"' :: s.data.foldr (fun c acc => escChar c ++ acc) ['"'])

mutual
/-- Serialization of a JSON value exactly as Python's `json.dumps` with
default separators renders it: `", "` between items and `": "` after keys. -/
def dumps : Json → String
  | Json.str s => jstring s
  | Json.int n => String.mk (intToDec n)
  | Json.arr xs => "[" ++ dumpsArr xs ++ "]"
  | Json.obj kvs => "\x7b" ++ dumpsObj kvs ++ "\x7d"

/-- Serialization of the comma separated items of a JSON array. -/
def dumpsArr : List Json → String
  | [] => ""
  | [x] => dumps x
  | x :: y :: xs => dumps x ++ ", " ++ dumpsArr (y :: xs)

/-- Serialization of the comma separated entries of a JSON object. -/
def dumpsObj : List (String × Json) → String
  | [] => ""
  | [(k, v)] => jstring k ++ ": " ++ dumps v
  | (k, v) :: e :: kvs => jstring k ++ ": " ++ dumps v ++ ", " ++ dumpsObj (e :: kvs)
end

/-- Python dict assignment `d[k] = v` on an insertion ordered association
list: an existing key keeps its position and gets the new value, a new key
is appended at the end. -/
def dictSet (d : List (String × Json)) (k : String) (v : Json) : List (String × Json) :=
  if ∃ p ∈ d, p.1 = k then
    d.map (fun p => if p.1 = k then (k, v) else p)
  else d ++ [(k, v)]

/-- Python dict lookup `d[k]`, returning the value at the first matching
key (keys are unique in real Python dicts). -/
def getKey : List (String × Json) → String → Option Json
  | [], _ => none
  | p :: rest, k => if p.1 = k then some p.2 else getKey rest k

/-- Number of entries of the dict carrying the key `k`. -/
def countKey : List (String × Json) → String → Nat
  | [], _ => 0
  | p :: rest, k => (if p.1 = k then 1 else 0) + countKey rest k

/-- Model of Python's `random.randint lo hi`: an integer in the inclusive
range `[lo, hi]`; the randomness of the underlying generator is injected
through the `seed` argument. -/
def randint (seed lo hi : Nat) : Nat := lo + seed % (hi - lo + 1)

/-- Floor of a rational as an integer, computably (`Int.fdiv` of the
reduced numerator by the positive denominator). -/
def rfloor (q : ℚ) : Int := Int.fdiv q.num (q.den : Int)

/-- Rounding of a rational to the nearest integer with ties going to the
even integer — the rounding `printf`-style `%f` conversions apply to the
scaled value. -/
def roundHalfEven (q : ℚ) : Int :=
  let f := rfloor q
  let r := q - (f : ℚ)
  if r < 1/2 then f
  else if 1/2 < r then f + 1
  else if f % 2 = 0 then f else f + 1

/-- Characters of Python's `"%.8f" % q`: optional minus sign, then the
integer part, a dot, and exactly eight fractional digits of the value
rounded to eight decimal places. -/
def fmt8Chars (q : ℚ) : List Char :=
  let m := (roundHalfEven (|q| * 100000000)).toNat
  let ip := m / 100000000
  let fp := m % 100000000
  (if q < 0 then ['-'] else []) ++ natToDec ip ++ '.' :: padZeros 8 (natToDec fp)

/-- Python's `"%.8f" % q` as a string. -/
def pyFormat8 (q : ℚ) : String := String.mk (fmt8Chars q)

/-- Numeric value of a list of decimal digit characters. -/
def decCharsVal (cs : List Char) : Nat :=
  cs.foldl (fun acc c => 10 * acc + (c.toNat - 48)) 0

/-- Numeric value of an unsigned fixed point decimal string: digits, a
dot, then fractional digits. -/
def posVal (cs : List Char) : ℚ :=
  let ip := cs.takeWhile (fun c => c != '.')
  let fp := (cs.dropWhile (fun c => c != '.')).drop 1
  (decCharsVal ip : ℚ) + (decCharsVal fp : ℚ) / 10 ^ fp.length

/-- Numeric value a fixed point decimal string parses back to, with an
optional leading minus sign. -/
def fixed8Val (cs : List Char) : ℚ :=
  if cs.head? = some '-' then - posVal (cs.drop 1) else posVal cs

/-- Helper: `Int.fdiv` by one is the identity. -/
theorem fdiv_one_eq (n : Int) : Int.fdiv n 1 = n := by
  cases n with
  | ofNat m => show Int.fdiv (Int.ofNat m) (Int.ofNat 1) = Int.ofNat m
               cases m <;> simp [Int.fdiv]
  | negSucc m => show Int.fdiv (Int.negSucc m) (Int.ofNat 1) = Int.negSucc m
                 simp [Int.fdiv]

/-- The computable floor agrees with the literal value on integer
rationals. -/
theorem rfloor_intCast (n : Int) : rfloor ((n : ℚ)) = n := by
  unfold rfloor
  rw [Rat.num_intCast, Rat.den_intCast]
  exact fdiv_one_eq n

/-- Round-half-even of an integer value is that integer. -/
theorem roundHalfEven_intCast (n : Int) : roundHalfEven ((n : ℚ)) = n := by
  unfold roundHalfEven
  rw [rfloor_intCast]
  dsimp only
  rw [sub_self]
  norm_num

example : pyFormat8 (1 / 10000000 : ℚ) = "0.00000010" := by
  have h : |(1 / 10000000 : ℚ)| * 100000000 = ((10 : ℤ) : ℚ) := by
    rw [abs_of_pos (by norm_num)]; norm_num
  unfold pyFormat8 fmt8Chars
  rw [h, roundHalfEven_intCast, if_neg (by norm_num : ¬ (1 / 10000000 : ℚ) < 0)]
  decide

example : pyFormat8 (-1 / 2 : ℚ) = "-0.50000000" := by
  have h : |(-1 / 2 : ℚ)| * 100000000 = ((50000000 : ℤ) : ℚ) := by
    rw [abs_of_neg (by norm_num : (-1 / 2 : ℚ) < 0)]; norm_num
  unfold pyFormat8 fmt8Chars
  rw [h, roundHalfEven_intCast, if_pos (by norm_num : (-1 / 2 : ℚ) < 0)]
  decide

example : dumps (Json.obj [("request", Json.str "user_balance"), ("nonce", Json.int 42)])
    = "\x7b\"request\": \"user_balance\", \"nonce\": 42\x7d" := by
  simp only [dumps, dumpsObj, jstring, escChar]
  decide

/-! SHA-256 and HMAC, embedding Python's `hashlib.sha256` and `hmac`.
Words are naturals reduced modulo `2 ^ 32`; messages and digests are
lists of byte values. -/

/-- Truncation to a 32 bit word. -/
def w32 (n : Nat) : Nat := n % 4294967296

/-- Right rotation of a 32 bit word by `k` positions. -/
def rotr (amt w : Nat) : Nat := w32 (Nat.lor (w >>> amt) (w <<< (32 - amt)))

/-- First sigma function of the SHA-256 message schedule. -/
def ssig0 (x : Nat) : Nat := (rotr 7 x) ^^^ (rotr 18 x) ^^^ (x >>> 3)

/-- Second sigma function of the SHA-256 message schedule. -/
def ssig1 (x : Nat) : Nat := (rotr 17 x) ^^^ (rotr 19 x) ^^^ (x >>> 10)

/-- First sigma function of the SHA-256 compression rounds. -/
def bsig0 (x : Nat) : Nat := (rotr 2 x) ^^^ (rotr 13 x) ^^^ (rotr 22 x)

/-- Second sigma function of the SHA-256 compression rounds. -/
def bsig1 (x : Nat) : Nat := (rotr 6 x) ^^^ (rotr 11 x) ^^^ (rotr 25 x)

/-- Choice function of the SHA-256 compression rounds. -/
def chFn (e f g : Nat) : Nat := Nat.xor (e &&& f) ((e ^^^ 4294967295) &&& g)

/-- Majority function of the SHA-256 compression rounds. -/
def majFn (a b c : Nat) : Nat := Nat.xor (Nat.xor (a &&& b) (a &&& c)) (b &&& c)

/-- Integer `e`-th root by bisection: the invariant is that the root lies
in `[lo, hi)`. -/
def irootAux (e : Nat) : Nat → Nat → Nat → Nat → Nat
  | 0, lo, _, _ => lo
  | fuel+1, lo, hi, n =>
    let mid := (lo + hi) / 2
    if mid = lo then lo
    else if mid ^ e ≤ n then irootAux e fuel mid hi n
    else irootAux e fuel lo mid n

/-- Largest `k` with `k ^ e ≤ n`. -/
def iroot (e n : Nat) : Nat := irootAux e 200 0 (n + 1) n

/-- The first sixty-four prime numbers, whose cube roots seed the SHA-256
round constants. -/
def first64Primes : List Nat :=
  [2, 3, 5, 7, 11, 13, 17, 19, 23, 29, 31, 37, 41, 43, 47, 53,
   59, 61, 67, 71, 73, 79, 83, 89, 97, 101, 103, 107, 109, 113, 127, 131,
   137, 139, 149, 151, 157, 163, 167, 173, 179, 181, 191, 193, 197, 199, 211, 223,
   227, 229, 233, 239, 241, 251, 257, 263, 269, 271, 277, 281, 283, 293, 307, 311]

/-- SHA-256 round constants: the first 32 bits of the fractional parts of
the cube roots of the first sixty-four primes. -/
def sha256K : List Nat :=
  first64Primes.map (fun p => iroot 3 (p * 2 ^ 96) % 2 ^ 32)

/-- SHA-256 initial state: the first 32 bits of the fractional parts of
the square roots of the first eight primes. -/
def sha256Init : List Nat :=
  [2, 3, 5, 7, 11, 13, 17, 19].map (fun p => iroot 2 (p * 2 ^ 64) % 2 ^ 32)

/-- Big-endian bytes of `v`, `w` bytes wide. -/
def beBytes : Nat → Nat → List Nat
  | 0, _ => []
  | w+1, v => beBytes w (v / 256) ++ [v % 256]

/-- SHA-256 padding: a `0x80` byte, zeros, and the bit length as eight
big-endian bytes, bringing the length to a multiple of sixty-four. -/
def shaPad (m : List Nat) : List Nat :=
  m ++ 128 :: List.replicate ((64 - ((m.length + 9) % 64)) % 64) 0
    ++ beBytes 8 (8 * m.length)

/-- Big-endian 32 bit words of a list of bytes. -/
def beWords : List Nat → List Nat
  | b0 :: b1 :: b2 :: b3 :: rest =>
    (((b0 * 256 + b1) * 256 + b2) * 256 + b3) :: beWords rest
  | _ => []

/-- Iteration of a function a fixed number of times. -/
def iterN (f : List Nat → List Nat) : Nat → List Nat → List Nat
  | 0, a => a
  | n+1, a => iterN f n (f a)

/-- One extension step of the SHA-256 message schedule, appending the
next word. -/
def schedStep (w : List Nat) : List Nat :=
  w ++ [w32 (ssig1 (w.getD (w.length - 2) 0) + w.getD (w.length - 7) 0
    + ssig0 (w.getD (w.length - 15) 0) + w.getD (w.length - 16) 0)]

/-- Full SHA-256 message schedule: the sixteen block words extended to
sixty-four. -/
def schedule (ws : List Nat) : List Nat := iterN schedStep 48 ws

/-- One SHA-256 compression round on the eight word working state. -/
def compressRound (kw : Nat × Nat) (st : List Nat) : List Nat :=
  match st with
  | [a, b, c, d, e, f, g, h] =>
    let t1 := w32 (h + bsig1 e + chFn e f g + kw.1 + kw.2)
    let t2 := w32 (bsig0 a + majFn a b c)
    [w32 (t1 + t2), a, b, c, w32 (d + t1), e, f, g]
  | other => other

/-- SHA-256 compression of one sixteen word block into the chaining
state. -/
def compress (st block : List Nat) : List Nat :=
  let fin := ((sha256K.zip (schedule block)).foldl (fun s kw => compressRound kw s) st)
  (st.zip fin).map (fun p => w32 (p.1 + p.2))

/-- Folding of SHA-256 compression over a padded message, sixteen words
per block. -/
def sha256Blocks : List Nat → List Nat → List Nat
  | st, w0 :: w1 :: w2 :: w3 :: w4 :: w5 :: w6 :: w7 ::
        w8 :: w9 :: w10 :: w11 :: w12 :: w13 :: w14 :: w15 :: rest =>
    sha256Blocks
      (compress st [w0, w1, w2, w3, w4, w5, w6, w7, w8, w9, w10, w11, w12, w13, w14, w15])
      rest
  | st, _ => st

/-- SHA-256 digest (32 bytes) of a byte list. -/
def sha256 (msg : List Nat) : List Nat :=
  (sha256Blocks sha256Init (beWords (shaPad msg))).foldr
    (fun h acc => beBytes 4 h ++ acc) []

/-- HMAC-SHA256 (RFC 2104) of a message under a key, as `hmac.new` with
`hashlib.sha256` computes it. -/
def hmacSha256 (key msg : List Nat) : List Nat :=
  let k0 := if 64 < key.length then sha256 key else key
  let k1 := k0 ++ List.replicate (64 - k0.length) 0
  sha256 ((k1.map (fun b => b ^^^ 92)) ++ sha256 ((k1.map (fun b => b ^^^ 54)) ++ msg))

/-- Lowercase hexadecimal digit characters. -/
def hexDigitChars : List Char := "0123456789abcdef".data

/-- Character of the hexadecimal digit `d` (for `d < 16`). -/
def hexChar (d : Nat) : Char := hexDigitChars.getD d '0'

/-- Lowercase hexadecimal rendering of a byte list, as `hexdigest`
returns it. -/
def hexLower (bs : List Nat) : String :=
  String.mk (bs.foldr (fun b acc => hexChar (b / 16 % 16) :: hexChar (b % 16) :: acc) [])

/-- UTF-8 bytes of a single code point. -/
def utf8EncodeChar (c : Nat) : List Nat :=
  if c < 128 then [c]
  else if c < 2048 then [192 + c / 64, 128 + c % 64]
  else if c < 65536 then [224 + c / 4096, 128 + c / 64 % 64, 128 + c % 64]
  else [240 + c / 262144, 128 + c / 4096 % 64, 128 + c / 64 % 64, 128 + c % 64]

/-- Bytes of a string, UTF-8 encoded — the bytes Python hands to `hmac`
and posts as the request body. -/
def strBytes (s : String) : List Nat :=
  (s.data.map (fun ch => utf8EncodeChar ch.toNat)).flatten

example : sha256K.headD 0 = 0x428a2f98 := by decide
example : sha256K.getD 63 0 = 0xc67178f2 := by decide
example : sha256Init.headD 0 = 0x6a09e667 := by decide
example : hexLower (sha256 (strBytes "abc"))
    = "ba7816bf8f01cfea414140de5dae2223b00361a396177a9cb410ff61f20015ad" := by decide
example : hexLower (sha256 [])
    = "e3b0c44298fc1c149afbf4c8996fb92427ae41e4649b934ca495991b7852b855" := by decide
example : hexLower (hmacSha256 (strBytes "Jefe") (strBytes "what do ya want for nothing?"))
    = "5bdcc146bf60754e6a042426089575c75a003f089d2739839dec58b964ec3843" := by decide

/-! The client: `CoinutAPI` and its operations, embedded from
`coinut_api.py`.  The HTTP POST of `requests.post` is abstracted as a
function `net` from the built request to the parsed JSON response; the
two uses of `random.randint` take explicit seed arguments. -/

/-- The HTTP request `CoinutAPI.request` builds and posts: the fixed
endpoint URL, the auth headers (possibly none), and the serialized JSON
body. -/
structure HttpRequest where
  url : String
  headers : List (String × String)
  body : String

/-- Client state: the optional credentials, set at construction and never
mutated. -/
structure CoinutAPI where
  user : Option String
  api_key : Option String

/-- The fixed endpoint of the exchange. -/
def coinutURL : String := "https://api.coinut.com"

/-- Bounds of `random.randint(1, 4294967290)` as the source calls it. -/
def nonceMax : Nat := 4294967290

/-- Auth headers of a request: when both credentials are present, the
username and the lowercase hex HMAC-SHA256 of the exact body bytes keyed
by the api key; otherwise no headers, as in the source's guard
`if self.api_key is not None and self.user is not None`. -/
def signedHeaders (c : CoinutAPI) (body : String) : List (String × String) :=
  match c.api_key, c.user with
  | some key, some u =>
    [("X-USER", u), ("X-SIGNATURE", hexLower (hmacSha256 (strBytes key) (strBytes body)))]
  | _, _ => []

/-- The dispatch primitive `CoinutAPI.request`: inserts `request` and
`nonce` into the caller's content dict (in place — the first component of
the result is the mutated dict the caller retains), serializes it, signs
it when credentials are present, and posts it.  `seed` feeds the
`random.randint(1, 4294967290)` call. -/
def CoinutAPI.request (c : CoinutAPI) (api : String)
    (content : List (String × Json)) (seed : Nat) :
    List (String × Json) × HttpRequest :=
  let content1 := dictSet content "request" (Json.str api)
  let content2 := dictSet content1 "nonce" (Json.int (randint seed 1 nonceMax))
  let body := dumps (Json.obj content2)
  (content2, ⟨coinutURL, signedHeaders c body, body⟩)

/-- Module state for the mutable default argument of `request`: the
single dict object created once when the function is defined and shared
by every call that omits `content`. -/
structure PyState where
  requestDefault : List (String × Json)

/-- State at module load: the default dict starts empty. -/
def initPyState : PyState := ⟨[]⟩

/-- A call of `request` that omits `content`, so Python passes the shared
default dict: the call mutates that shared object, and the new module
state retains the mutation. -/
def CoinutAPI.requestNoContent (c : CoinutAPI) (api : String) (seed : Nat)
    (st : PyState) : PyState × HttpRequest :=
  let r := c.request api st.requestDefault seed
  (⟨r.1⟩, r.2)

/-- Python subscript `j[k]` on a JSON object (a missing key raises, which
the embedding returns as `none`). -/
def Json.getField : Json → String → Option Json
  | Json.obj kvs, k => getKey kvs k
  | _, _ => none

/-- Python subscript `j[i]` on a JSON array. -/
def Json.getIdx : Json → Nat → Option Json
  | Json.arr xs, i => xs.get? i
  | _, _ => none

/-- `get_balance`: dispatches `user_balance` with no content argument, so
it uses (and mutates) the shared default dict. -/
def CoinutAPI.get_balance (c : CoinutAPI) (net : HttpRequest → Json) (seed : Nat)
    (st : PyState) : PyState × Json :=
  let r := c.requestNoContent "user_balance" seed st
  (r.1, net r.2)

/-- `get_spot_instruments`: dispatches `inst_list` for `SPOT`; with a
pair it returns `result['SPOT'][pair][0]`, otherwise `result['SPOT']`. -/
def CoinutAPI.get_spot_instruments (c : CoinutAPI) (net : HttpRequest → Json)
    (pair : Option String) (seed : Nat) : Option Json :=
  let result := net (c.request "inst_list" [("sec_type", Json.str "SPOT")] seed).2
  match pair with
  | some p => do ((← (← result.getField "SPOT").getField p).getIdx 0)
  | none => result.getField "SPOT"

/-- `get_spot_inst_id`: the `inst_id` field of the pair's instrument
info. -/
def CoinutAPI.get_spot_inst_id (c : CoinutAPI) (net : HttpRequest → Json)
    (pair : String) (seed : Nat) : Option Json := do
  (← c.get_spot_instruments net (some pair) seed).getField "inst_id"

/-- `get_inst_tick`: dispatches `inst_tick` for one instrument. -/
def CoinutAPI.get_inst_tick (c : CoinutAPI) (net : HttpRequest → Json)
    (inst_id : Int) (seed : Nat) : Json :=
  net (c.request "inst_tick" [("inst_id", Json.int inst_id)] seed).2

/-- `get_orderbook`: dispatches `inst_order_book` for one instrument. -/
def CoinutAPI.get_orderbook (c : CoinutAPI) (net : HttpRequest → Json)
    (inst_id : Int) (seed : Nat) : Json :=
  net (c.request "inst_order_book" [("inst_id", Json.int inst_id)] seed).2

/-- `get_open_orders`: dispatches `user_open_orders` and projects the
`orders` field of the response. -/
def CoinutAPI.get_open_orders (c : CoinutAPI) (net : HttpRequest → Json)
    (inst_id : Int) (seed : Nat) : Option Json :=
  (net (c.request "user_open_orders" [("inst_id", Json.int inst_id)] seed).2).getField "orders"

/-- `create_new_order`: the pure order builder.  It performs no network
call: it only assembles the dict `inst_id`, `side`, `qty` (and `price`
when given), then `client_ord_id` — the caller's value if supplied,
otherwise `random.randint(1, 4294967290)` fed by `seed`. -/
def CoinutAPI.create_new_order (_c : CoinutAPI) (inst_id : Int) (side : String)
    (qty : ℚ) (price : Option ℚ) (client_ord_id : Option Int) (seed : Nat) :
    List (String × Json) :=
  let order := [("inst_id", Json.int inst_id), ("side", Json.str side),
                ("qty", Json.str (pyFormat8 qty))]
  let order1 := match price with
    | some p => dictSet order "price" (Json.str (pyFormat8 p))
    | none => order
  match client_ord_id with
  | some cid => dictSet order1 "client_ord_id" (Json.int cid)
  | none => dictSet order1 "client_ord_id" (Json.int (randint seed 1 nonceMax))

/-- `submit_new_order`: builds the order and dispatches it as
`new_order`. -/
def CoinutAPI.submit_new_order (c : CoinutAPI) (net : HttpRequest → Json)
    (inst_id : Int) (side : String) (qty : ℚ) (price : Option ℚ)
    (client_ord_id : Option Int) (seedOrd seedReq : Nat) : Json :=
  net (c.request "new_order"
    (c.create_new_order inst_id side qty price client_ord_id seedOrd) seedReq).2

/-- `submit_new_orders`: dispatches a batch of orders as `new_orders`,
with no cap on the batch size. -/
def CoinutAPI.submit_new_orders (c : CoinutAPI) (net : HttpRequest → Json)
    (ords : List Json) (seed : Nat) : Json :=
  net (c.request "new_orders" [("orders", Json.arr ords)] seed).2

/-- `cancel_order`: dispatches one cancellation. -/
def CoinutAPI.cancel_order (c : CoinutAPI) (net : HttpRequest → Json)
    (inst_id : Int) (order_id : Int) (seed : Nat) : Json :=
  net (c.request "cancel_order"
    [("inst_id", Json.int inst_id), ("order_id", Json.int order_id)] seed).2

/-- `cancel_orders`: builds one cancel entry per id (for all of them, of
any number) and dispatches the batch as `cancel_orders`. -/
def CoinutAPI.cancel_orders (c : CoinutAPI) (net : HttpRequest → Json)
    (inst_id : Int) (order_ids : List Int) (seed : Nat) : Json :=
  let ords := order_ids.map
    (fun x => Json.obj [("inst_id", Json.int inst_id), ("order_id", Json.int x)])
  net (c.request "cancel_orders" [("entries", Json.arr ords)] seed).2

/-! Lemmas about the dict operations. -/

/-- A dict with no entry at key `k` counts zero entries at `k`. -/
theorem countKey_eq_zero (d : List (String × Json)) (k : String)
    (h : ∀ p ∈ d, p.1 ≠ k) : countKey d k = 0 := by
  induction d with
  | nil => rfl
  | cons p rest ih =>
    have hp : p.1 ≠ k := h p (List.mem_cons_self p rest)
    simp only [countKey, hp, if_false, Nat.zero_add]
    exact ih (fun q hq => h q (List.mem_cons_of_mem p hq))

/-- Replacing the value at `k` everywhere keeps every entry's key. -/
theorem keys_map_replace (d : List (String × Json)) (k : String) (v : Json) :
    (d.map (fun p => if p.1 = k then (k, v) else p)).map Prod.fst = d.map Prod.fst := by
  induction d with
  | nil => rfl
  | cons p rest ih =>
    by_cases hp : p.1 = k
    · simp [hp, ih]
    · simp [hp, ih]

/-- Keys of `dictSet`: unchanged when the key was present, appended
otherwise. -/
theorem keys_dictSet (d : List (String × Json)) (k : String) (v : Json) :
    (dictSet d k v).map Prod.fst =
      if ∃ p ∈ d, p.1 = k then d.map Prod.fst else d.map Prod.fst ++ [k] := by
  unfold dictSet
  split
  · exact keys_map_replace d k v
  · simp

/-- `dictSet` preserves distinctness of the keys. -/
theorem nodup_keys_dictSet (d : List (String × Json)) (k : String) (v : Json)
    (h : (d.map Prod.fst).Nodup) : ((dictSet d k v).map Prod.fst).Nodup := by
  rw [keys_dictSet]
  split
  · exact h
  case isFalse hany =>
    have hk : k ∉ d.map Prod.fst := by
      intro hmem
      obtain ⟨p, hp, hpk⟩ := List.mem_map.mp hmem
      exact hany ⟨p, hp, hpk⟩
    rw [List.nodup_append]
    refine ⟨h, List.nodup_singleton k, ?_⟩
    intro a ha hb
    rw [List.mem_singleton] at hb
    exact hk (hb ▸ ha)

/-- Lookup in the key-replacement map at the replaced key. -/
theorem getKey_replace_self (d : List (String × Json)) (k : String) (v : Json)
    (hany : ∃ p ∈ d, p.1 = k) :
    getKey (d.map (fun p => if p.1 = k then (k, v) else p)) k = some v := by
  induction d with
  | nil => simp at hany
  | cons p rest ih =>
    by_cases hp : p.1 = k
    · simp [getKey, hp]
    · have hrest : ∃ q ∈ rest, q.1 = k := by
        obtain ⟨q, hq, hqk⟩ := hany
        rcases List.mem_cons.mp hq with h1 | h2
        · exact absurd (h1 ▸ hqk) hp
        · exact ⟨q, h2, hqk⟩
      simpa [getKey, hp] using ih hrest

/-- Lookup after appending the fresh entry at `k`. -/
theorem getKey_append_self (d : List (String × Json)) (k : String) (v : Json)
    (hnone : ¬ ∃ p ∈ d, p.1 = k) :
    getKey (d ++ [(k, v)]) k = some v := by
  induction d with
  | nil => simp [getKey]
  | cons p rest ih =>
    have hp : p.1 ≠ k := fun e => hnone ⟨p, List.mem_cons_self p rest, e⟩
    simpa [getKey, hp] using
      ih (fun hr => hnone (by
        obtain ⟨q, hq, hqk⟩ := hr
        exact ⟨q, List.mem_cons_of_mem p hq, hqk⟩))

/-- Lookup at the key just set finds the new value. -/
theorem getKey_dictSet_self (d : List (String × Json)) (k : String) (v : Json) :
    getKey (dictSet d k v) k = some v := by
  unfold dictSet
  split
  case isTrue hany => exact getKey_replace_self d k v hany
  case isFalse hany => exact getKey_append_self d k v hany

/-- Lookup at another key is unchanged by the key-replacement map. -/
theorem getKey_map_replace (d : List (String × Json)) (k k' : String) (v : Json)
    (h : k' ≠ k) :
    getKey (d.map (fun p => if p.1 = k then (k, v) else p)) k' = getKey d k' := by
  induction d with
  | nil => rfl
  | cons p rest ih =>
    by_cases hp : p.1 = k
    · have h1 : ¬ (k = k') := fun e => h (Eq.symm e)
      have h2 : ¬ (p.1 = k') := fun e => h (Eq.trans (Eq.symm e) hp)
      simp only [List.map_cons, hp, if_true, getKey, h1, h2, if_false]
      exact ih
    · simp only [List.map_cons, hp, if_false, getKey]
      by_cases hp' : p.1 = k'
      · simp [hp']
      · simp only [hp', if_false]
        exact ih

/-- Lookup at another key is unchanged by appending an entry at `k`. -/
theorem getKey_append_other (d : List (String × Json)) (k k' : String) (v : Json)
    (h : k' ≠ k) :
    getKey (d ++ [(k, v)]) k' = getKey d k' := by
  induction d with
  | nil =>
    have h1 : ¬ (k = k') := fun e => h (Eq.symm e)
    simp [getKey, h1]
  | cons p rest ih =>
    by_cases hp' : p.1 = k'
    · simp [getKey, hp']
    · simp only [List.cons_append, getKey, hp', if_false]
      exact ih

/-- Lookup at a different key is unchanged by `dictSet`. -/
theorem getKey_dictSet_other (d : List (String × Json)) (k k' : String) (v : Json)
    (h : k' ≠ k) : getKey (dictSet d k v) k' = getKey d k' := by
  unfold dictSet
  split
  · exact getKey_map_replace d k k' v h
  · exact getKey_append_other d k k' v h

/-- Count at another key is stable under the key-replacement map. -/
theorem countKey_map_replace (d : List (String × Json)) (k k' : String) (v : Json)
    (h : k' ≠ k) :
    countKey (d.map (fun p => if p.1 = k then (k, v) else p)) k' = countKey d k' := by
  induction d with
  | nil => rfl
  | cons p rest ih =>
    by_cases hp : p.1 = k
    · have h1 : ¬ (k = k') := fun e => h (Eq.symm e)
      have h2 : ¬ (p.1 = k') := fun e => h (Eq.trans (Eq.symm e) hp)
      simp only [List.map_cons, hp, if_true, countKey, h1, h2, if_false]
      rw [ih]
    · simp only [List.map_cons, hp, if_false, countKey]
      rw [ih]

/-- Count at another key is unchanged by appending an entry at `k`. -/
theorem countKey_append_other (d : List (String × Json)) (k k' : String) (v : Json)
    (h : k' ≠ k) :
    countKey (d ++ [(k, v)]) k' = countKey d k' := by
  induction d with
  | nil =>
    have h1 : ¬ (k = k') := fun e => h (Eq.symm e)
    simp [countKey, h1]
  | cons p rest ih =>
    simp only [List.cons_append, countKey, List.append_eq]
    rw [ih]

/-- Setting key `k` leaves the count of any other key unchanged. -/
theorem countKey_dictSet_other (d : List (String × Json)) (k k' : String) (v : Json)
    (h : k' ≠ k) : countKey (dictSet d k v) k' = countKey d k' := by
  unfold dictSet
  split
  · exact countKey_map_replace d k k' v h
  · exact countKey_append_other d k k' v h

/-- Count at `k` in the key-replacement map, on a dict with distinct keys
that contains `k`. -/
theorem countKey_replace_self (d : List (String × Json)) (k : String) (v : Json)
    (hnd : (d.map Prod.fst).Nodup) (hany : ∃ p ∈ d, p.1 = k) :
    countKey (d.map (fun p => if p.1 = k then (k, v) else p)) k = 1 := by
  induction d with
  | nil => simp at hany
  | cons p rest ih =>
    have hnd2 : (rest.map Prod.fst).Nodup := (List.nodup_cons.mp hnd).2
    by_cases hp : p.1 = k
    · have hnot : ∀ q ∈ rest, q.1 ≠ k := by
        intro q hq hqk
        have : p.1 ∈ rest.map Prod.fst := by
          rw [hp, ← hqk]
          exact List.mem_map.mpr ⟨q, hq, rfl⟩
        exact (List.nodup_cons.mp hnd).1 this
      have hzero : countKey (rest.map (fun p => if p.1 = k then (k, v) else p)) k = 0 := by
        apply countKey_eq_zero
        intro r hr
        obtain ⟨q, hq, hqe⟩ := List.mem_map.mp hr
        have hqk : q.1 ≠ k := hnot q hq
        rw [← hqe]
        simp [hqk]
      simp [countKey, hp, hzero]
    · have hrest : ∃ q ∈ rest, q.1 = k := by
        obtain ⟨q, hq, hqk⟩ := hany
        rcases List.mem_cons.mp hq with h1 | h2
        · exact absurd (h1 ▸ hqk) hp
        · exact ⟨q, h2, hqk⟩
      simpa [countKey, hp] using ih hnd2 hrest

/-- Count at `k` after appending the fresh entry at `k`. -/
theorem countKey_append_self (d : List (String × Json)) (k : String) (v : Json)
    (hnone : ¬ ∃ p ∈ d, p.1 = k) :
    countKey (d ++ [(k, v)]) k = 1 := by
  induction d with
  | nil => simp [countKey]
  | cons p rest ih =>
    have hp : p.1 ≠ k := fun e => hnone ⟨p, List.mem_cons_self p rest, e⟩
    simp only [List.cons_append, countKey, hp, if_false, Nat.zero_add]
    exact
      ih (fun hr => hnone (by
        obtain ⟨q, hq, hqk⟩ := hr
        exact ⟨q, List.mem_cons_of_mem p hq, hqk⟩))

/-- After setting key `k` on a dict with distinct keys, exactly one entry
carries `k`. -/
theorem countKey_dictSet_self (d : List (String × Json)) (k : String) (v : Json)
    (h : (d.map Prod.fst).Nodup) : countKey (dictSet d k v) k = 1 := by
  unfold dictSet
  split
  case isTrue hany => exact countKey_replace_self d k v h hany
  case isFalse hany => exact countKey_append_self d k v hany

/-! Lemmas about decimal rendering and parsing, leading to the analysis
of `pyFormat8`. -/

/-- Unfolding of `natDigitsRev` at zero fuel. -/
theorem natDigitsRev_zero (n : Nat) : natDigitsRev 0 n = [] := rfl

/-- Unfolding of `natDigitsRev` at positive fuel. -/
theorem natDigitsRev_succ (f n : Nat) :
    natDigitsRev (f + 1) n = if n = 0 then [] else n % 10 :: natDigitsRev f (n / 10) := rfl

/-- Little-endian value of a digit list. -/
def valRev : List Nat → Nat
  | [] => 0
  | d :: ds => d + 10 * valRev ds

/-- With enough fuel, the digits of `n` evaluate back to `n`. -/
theorem valRev_natDigitsRev : ∀ fuel n, n ≤ fuel → valRev (natDigitsRev fuel n) = n := by
  intro fuel
  induction fuel with
  | zero =>
    intro n h
    rw [natDigitsRev_zero]
    simp only [valRev]
    omega
  | succ f ih =>
    intro n h
    rw [natDigitsRev_succ]
    by_cases hn : n = 0
    · simp [hn, valRev]
    · rw [if_neg hn]
      simp only [valRev]
      rw [ih (n / 10) (by omega)]
      omega

/-- Every digit produced by `natDigitsRev` is below ten. -/
theorem natDigitsRev_lt_ten : ∀ fuel n d, d ∈ natDigitsRev fuel n → d < 10 := by
  intro fuel
  induction fuel with
  | zero =>
    intro n d hd
    rw [natDigitsRev_zero] at hd
    simp at hd
  | succ f ih =>
    intro n d hd
    rw [natDigitsRev_succ] at hd
    by_cases hn : n = 0
    · simp [hn] at hd
    · rw [if_neg hn] at hd
      rcases List.mem_cons.mp hd with h1 | h2
      · omega
      · exact ih (n / 10) d h2

/-- A number below `10 ^ k` has at most `k` digits. -/
theorem natDigitsRev_length_le : ∀ fuel n k, n < 10 ^ k → (natDigitsRev fuel n).length ≤ k := by
  intro fuel
  induction fuel with
  | zero =>
    intro n k _
    rw [natDigitsRev_zero]
    simp
  | succ f ih =>
    intro n k hk
    rw [natDigitsRev_succ]
    by_cases hn : n = 0
    · simp [hn]
    · rw [if_neg hn]
      cases k with
      | zero =>
        simp only [pow_zero] at hk
        omega
      | succ k' =>
        simp only [List.length_cons]
        have hdiv : n / 10 < 10 ^ k' := by
          rw [Nat.div_lt_iff_lt_mul (by norm_num : 0 < 10)]
          calc n < 10 ^ (k' + 1) := hk
          _ = 10 ^ k' * 10 := by ring
        have := ih (n / 10) k' hdiv
        omega

/-- Value of a decimal digit character (digits below ten). -/
theorem digitChar_val (d : Nat) (h : d < 10) : (digitChar d).toNat - 48 = d := by
  interval_cases d <;> decide

/-- Every decimal digit character is a digit character. -/
theorem digitChar_isDigit (d : Nat) : (digitChar d).isDigit = true := by
  by_cases h : d < 10
  · interval_cases d <;> decide
  · unfold digitChar
    rw [List.getD_eq_default]
    · decide
    · simp only [decDigitChars, List.length]
      omega

/-- Folding the decimal accumulator over reversed digits recovers the
value with the accumulator scaled past them. -/
theorem foldl_rev_digits (ds : List Nat) (h : ∀ d ∈ ds, d < 10) (a : Nat) :
    ((ds.reverse).map digitChar).foldl (fun acc c => 10 * acc + (c.toNat - 48)) a
      = a * 10 ^ ds.length + valRev ds := by
  induction ds generalizing a with
  | nil => simp [valRev]
  | cons d tl ih =>
    have hd : d < 10 := h d (List.mem_cons_self d tl)
    have htl : ∀ x ∈ tl, x < 10 := fun x hx => h x (List.mem_cons_of_mem d hx)
    simp only [List.reverse_cons, List.map_append, List.map_cons, List.map_nil,
      List.foldl_append, List.foldl_cons, List.foldl_nil]
    rw [ih htl a, digitChar_val d hd]
    simp only [valRev, List.length_cons]
    ring

/-- Parsing the decimal rendering of `n` gives back `n`. -/
theorem decCharsVal_natToDec (n : Nat) : decCharsVal (natToDec n) = n := by
  unfold natToDec decCharsVal
  by_cases hn : n = 0
  · simp [hn]
  · rw [if_neg hn]
    rw [foldl_rev_digits (natDigitsRev n n) (fun d hd => natDigitsRev_lt_ten n n d hd) 0]
    rw [valRev_natDigitsRev n n (Nat.le_refl n)]
    simp

/-- Leading zeros do not change the parsed value. -/
theorem decCharsVal_replicate_zero (z : Nat) (cs : List Char) :
    decCharsVal (List.replicate z '0' ++ cs) = decCharsVal cs := by
  unfold decCharsVal
  rw [List.foldl_append]
  have : ∀ m, List.foldl (fun acc c => 10 * acc + (c.toNat - 48)) 0 (List.replicate m '0') = 0 := by
    intro m
    induction m with
    | zero => rfl
    | succ m' ihm => simpa [List.replicate_succ] using ihm
  rw [this z]

/-- Every character of the decimal rendering is a digit. -/
theorem natToDec_isDigit (n : Nat) : ∀ c ∈ natToDec n, c.isDigit = true := by
  unfold natToDec
  by_cases hn : n = 0
  · simp only [hn, if_true]
    intro c hc
    rw [List.mem_singleton] at hc
    subst hc
    decide
  · rw [if_neg hn]
    intro c hc
    obtain ⟨d, hd, hde⟩ := List.mem_map.mp hc
    rw [← hde]
    exact digitChar_isDigit d

/-- The decimal rendering is never empty. -/
theorem natToDec_ne_nil (n : Nat) : natToDec n ≠ [] := by
  unfold natToDec
  by_cases hn : n = 0
  · simp [hn]
  · rw [if_neg hn]
    obtain ⟨f, hf⟩ : ∃ f, n = f + 1 := ⟨n - 1, by omega⟩
    rw [hf, natDigitsRev_succ]
    simp only [hf] at hn
    rw [if_neg hn]
    simp

/-- Digit count of the decimal rendering of a small number. -/
theorem natToDec_length_le (n k : Nat) (hk : 0 < k) (h : n < 10 ^ k) :
    (natToDec n).length ≤ k := by
  unfold natToDec
  by_cases hn : n = 0
  · simp only [hn, if_true, List.length_singleton]
    omega
  · rw [if_neg hn]
    rw [List.length_map, List.length_reverse]
    exact natDigitsRev_length_le n n k h

/-- A digit character is not a dot (boolean form). -/
theorem isDigit_ne_dot (c : Char) (h : c.isDigit = true) : (c != '.') = true := by
  rcases c with ⟨cv, hv⟩
  simp only [bne_iff_ne, ne_eq]
  intro he
  rw [he] at h
  simp [Char.isDigit] at h

/-- A digit character is not a minus sign. -/
theorem isDigit_ne_minus (c : Char) (h : c.isDigit = true) : c ≠ '-' := by
  intro he
  rw [he] at h
  simp [Char.isDigit] at h

/-- `takeWhile` of not-dot over digits followed by a dot keeps exactly the
digits. -/
theorem takeWhile_digits_dot (xs ys : List Char) (h : ∀ c ∈ xs, (c != '.') = true) :
    (xs ++ '.' :: ys).takeWhile (fun c => c != '.') = xs := by
  induction xs with
  | nil => simp [List.takeWhile]
  | cons x tl ih =>
    have hx : (x != '.') = true := h x (List.mem_cons_self x tl)
    simp only [List.cons_append, List.takeWhile_cons, hx, if_true]
    rw [ih (fun c hc => h c (List.mem_cons_of_mem x hc))]

/-- `dropWhile` of not-dot over digits followed by a dot stops at the
dot. -/
theorem dropWhile_digits_dot (xs ys : List Char) (h : ∀ c ∈ xs, (c != '.') = true) :
    (xs ++ '.' :: ys).dropWhile (fun c => c != '.') = '.' :: ys := by
  induction xs with
  | nil => simp [List.dropWhile]
  | cons x tl ih =>
    have hx : (x != '.') = true := h x (List.mem_cons_self x tl)
    simp only [List.cons_append, List.dropWhile_cons, hx, if_true]
    exact ih (fun c hc => h c (List.mem_cons_of_mem x hc))

/-- Value of a rendered fixed point string whose integer part is all
digits. -/
theorem posVal_split (xs ys : List Char) (h : ∀ c ∈ xs, (c != '.') = true) :
    posVal (xs ++ '.' :: ys)
      = (decCharsVal xs : ℚ) + (decCharsVal ys : ℚ) / 10 ^ ys.length := by
  unfold posVal
  rw [takeWhile_digits_dot xs ys h, dropWhile_digits_dot xs ys h]
  simp

/-- The padded fractional part is exactly eight characters. -/
theorem padZeros8_length (fp : Nat) (h : fp < 100000000) :
    (padZeros 8 (natToDec fp)).length = 8 := by
  have hlen : (natToDec fp).length ≤ 8 :=
    natToDec_length_le fp 8 (by norm_num) (lt_of_lt_of_le h (by norm_num))
  unfold padZeros
  rw [List.length_append, List.length_replicate]
  omega

/-- The padded fractional part is all digits. -/
theorem padZeros8_isDigit (fp : Nat) : ∀ c ∈ padZeros 8 (natToDec fp), c.isDigit = true := by
  intro c hc
  unfold padZeros at hc
  rcases List.mem_append.mp hc with h1 | h2
  · rw [List.eq_of_mem_replicate h1]
    decide
  · exact natToDec_isDigit fp c h2

/-- The padded fractional part parses back to the fractional value. -/
theorem padZeros8_val (fp : Nat) : decCharsVal (padZeros 8 (natToDec fp)) = fp := by
  unfold padZeros
  rw [decCharsVal_replicate_zero, decCharsVal_natToDec]

/-- Unsigned value of a rendered integer/fraction pair. -/
theorem posVal_ip_fp (ip fp : Nat) (h : fp < 100000000) :
    posVal (natToDec ip ++ '.' :: padZeros 8 (natToDec fp))
      = (ip : ℚ) + (fp : ℚ) / 100000000 := by
  rw [posVal_split _ _ (fun c hc => isDigit_ne_dot c (natToDec_isDigit ip c hc))]
  rw [decCharsVal_natToDec, padZeros8_val, padZeros8_length fp h]
  norm_num

/-- Signed-string value of a rendered integer/fraction pair (no sign). -/
theorem fixed8Val_ip_fp (ip fp : Nat) (h : fp < 100000000) :
    fixed8Val (natToDec ip ++ '.' :: padZeros 8 (natToDec fp))
      = (ip : ℚ) + (fp : ℚ) / 100000000 := by
  obtain ⟨c, cs, hcc⟩ := List.exists_cons_of_ne_nil (natToDec_ne_nil ip)
  have hcd : c.isDigit = true := by
    apply natToDec_isDigit ip
    rw [hcc]
    exact List.mem_cons_self c cs
  have hcm : c ≠ '-' := isDigit_ne_minus c hcd
  unfold fixed8Val
  rw [hcc]
  simp only [List.cons_append, List.head?_cons]
  rw [if_neg (by simp [hcm])]
  rw [← List.cons_append, ← hcc]
  exact posVal_ip_fp ip fp h

/-- The computable floor is the floor. -/
theorem rfloor_eq_floor (q : ℚ) : rfloor q = ⌊q⌋ := by
  unfold rfloor
  rw [Int.fdiv_eq_ediv _ (by exact_mod_cast Nat.zero_le q.den)]
  exact Rat.floor_def.symm

/-- Scaling `k / 10 ^ 8` by `10 ^ 8` in absolute value gives `|k|`. -/
theorem abs_scale_div8 (k : ℤ) :
    |((k : ℚ) / 100000000)| * 100000000 = ((k.natAbs : ℤ) : ℚ) := by
  rw [abs_div, abs_of_pos (by norm_num : (0:ℚ) < 100000000),
    div_mul_cancel₀ _ (by norm_num : (100000000:ℚ) ≠ 0)]
  rw [← Int.cast_abs]
  norm_num

/-- Splitting an eight-decimal value into rendered integer and fraction
parts and back. -/
theorem natCast_div_add_mod (n : Nat) :
    ((n / 100000000 : ℕ) : ℚ) + ((n % 100000000 : ℕ) : ℚ) / 100000000
      = (n : ℚ) / 100000000 := by
  have h1 : (n / 100000000) * 100000000 + n % 100000000 = n := by omega
  rw [eq_div_iff (by norm_num : (100000000:ℚ) ≠ 0), add_mul,
    div_mul_cancel₀ _ (by norm_num : (100000000:ℚ) ≠ 0)]
  exact_mod_cast congrArg (fun m : Nat => (m : ℚ)) h1

/-- Formatting an exact multiple of `10 ^ (-8)` and parsing it back is
the identity. -/
theorem fixed8Val_fmt8_div8 (k : ℤ) :
    fixed8Val (fmt8Chars ((k : ℚ) / 100000000)) = (k : ℚ) / 100000000 := by
  have hm : (roundHalfEven (|(k : ℚ) / 100000000| * 100000000)).toNat = k.natAbs := by
    rw [abs_scale_div8, roundHalfEven_intCast, Int.toNat_natCast]
  by_cases hk : k < 0
  · have hq : (k : ℚ) / 100000000 < 0 :=
      div_neg_of_neg_of_pos (by exact_mod_cast hk) (by norm_num)
    have hfmt : fmt8Chars ((k : ℚ) / 100000000)
        = '-' :: (natToDec (k.natAbs / 100000000)
            ++ '.' :: padZeros 8 (natToDec (k.natAbs % 100000000))) := by
      simp only [fmt8Chars]
      rw [hm, if_pos hq]
      simp
    rw [hfmt]
    unfold fixed8Val
    simp only [List.head?_cons, if_true]
    simp only [List.drop_one, List.tail_cons]
    rw [posVal_ip_fp _ _ (Nat.mod_lt _ (by norm_num)), natCast_div_add_mod]
    rw [Int.cast_natAbs, abs_of_neg hk]
    push_cast
    ring
  · push_neg at hk
    have hq : ¬ ((k : ℚ) / 100000000 < 0) :=
      not_lt.mpr (div_nonneg (by exact_mod_cast hk) (by norm_num))
    have hfmt : fmt8Chars ((k : ℚ) / 100000000)
        = natToDec (k.natAbs / 100000000)
            ++ '.' :: padZeros 8 (natToDec (k.natAbs % 100000000)) := by
      simp only [fmt8Chars]
      rw [hm, if_neg hq]
      simp
    rw [hfmt, fixed8Val_ip_fp _ _ (Nat.mod_lt _ (by norm_num)), natCast_div_add_mod]
    rw [Int.cast_natAbs, abs_of_nonneg hk]

/-- Shape of every formatted number: a signed all-digit integer part, one
dot, exactly eight fractional digits — never scientific notation. -/
theorem fmt8Chars_structure (q : ℚ) :
    ∃ a b, fmt8Chars q = a ++ '.' :: b ∧ b.length = 8 ∧
      (∀ c ∈ b, c.isDigit = true) ∧ (∀ c ∈ a, c.isDigit = true ∨ c = '-') := by
  refine ⟨(if q < 0 then ['-'] else [])
      ++ natToDec ((roundHalfEven (|q| * 100000000)).toNat / 100000000),
    padZeros 8 (natToDec ((roundHalfEven (|q| * 100000000)).toNat % 100000000)),
    ?_, ?_, ?_, ?_⟩
  · simp only [fmt8Chars]
  · exact padZeros8_length _ (Nat.mod_lt _ (by norm_num))
  · exact padZeros8_isDigit _
  · intro c hc
    rcases List.mem_append.mp hc with h1 | h2
    · right
      by_cases hq : q < 0
      · rw [if_pos hq] at h1
        exact List.mem_singleton.mp h1
      · rw [if_neg hq] at h1
        simp at h1
    · left
      exact natToDec_isDigit _ c h2

/-! Helper facts feeding the claim theorems. -/

/-- `dictSet` on a dict not containing the key appends the entry. -/
theorem dictSet_fresh (d : List (String × Json)) (k : String) (v : Json)
    (h : ∀ p ∈ d, p.1 ≠ k) : dictSet d k v = d ++ [(k, v)] := by
  unfold dictSet
  rw [if_neg]
  rintro ⟨p, hp, he⟩
  exact h p hp he

/-- Bounds of the nonce actually generated by the dispatch primitive. -/
theorem randint_nonce_bounds (seed : Nat) :
    1 ≤ randint seed 1 nonceMax ∧ randint seed 1 nonceMax ≤ 4294967290 := by
  unfold randint nonceMax
  omega

/-- The request built over a content dict free of the reserved keys is
the content with `request` and `nonce` appended, serialized. -/
theorem request_fresh (c : CoinutAPI) (api : String) (content : List (String × Json))
    (seed : Nat) (h1 : ∀ p ∈ content, p.1 ≠ "request") (h2 : ∀ p ∈ content, p.1 ≠ "nonce") :
    c.request api content seed
      = (content ++ [("request", Json.str api), ("nonce", Json.int (randint seed 1 nonceMax))],
         ⟨coinutURL,
          signedHeaders c (dumps (Json.obj (content
            ++ [("request", Json.str api), ("nonce", Json.int (randint seed 1 nonceMax))]))),
          dumps (Json.obj (content
            ++ [("request", Json.str api), ("nonce", Json.int (randint seed 1 nonceMax))]))⟩) := by
  unfold CoinutAPI.request
  dsimp only
  rw [dictSet_fresh _ _ _ h1]
  rw [dictSet_fresh _ _ _ (by
    intro p hp
    rcases List.mem_append.mp hp with hc | hr
    · exact h2 p hc
    · rw [List.mem_singleton] at hr
      subst hr
      show ("request" : String) ≠ "nonce"
      decide)]
  rw [List.append_assoc]
  rfl

/-- Every character of a lowercase hexadecimal rendering is a decimal
digit or a lowercase letter between `'a'` and `'f'`. -/
theorem hexChar_lower (n : Nat) :
    (hexChar n).isDigit = true ∨ ('a' ≤ hexChar n ∧ hexChar n ≤ 'f') := by
  by_cases h : n < 16
  · interval_cases n <;> decide
  · unfold hexChar
    rw [List.getD_eq_default]
    · left
      decide
    · simp only [hexDigitChars, List.length]
      omega

/-- All characters of `hexdigest` output are lowercase hex digits. -/
theorem hexLower_chars (bs : List Nat) :
    ∀ ch ∈ (hexLower bs).data, ch.isDigit = true ∨ ('a' ≤ ch ∧ ch ≤ 'f') := by
  unfold hexLower
  intro ch hch
  induction bs with
  | nil => simp at hch
  | cons b rest ih =>
    simp only [List.foldr_cons] at hch
    rcases List.mem_cons.mp hch with h1 | h2
    · rw [h1]
      exact hexChar_lower _
    · rcases List.mem_cons.mp h2 with h3 | h4
      · rw [h3]
        exact hexChar_lower _
      · exact ih h4

/-- Value of the example quantity `0.0000001` under `"%.8f"`. -/
theorem pyFormat8_qty_example : pyFormat8 (1 / 10000000 : ℚ) = "0.00000010" := by
  have h : |(1 / 10000000 : ℚ)| * 100000000 = ((10 : ℤ) : ℚ) := by
    rw [abs_of_pos (by norm_num)]; norm_num
  unfold pyFormat8 fmt8Chars
  rw [h, roundHalfEven_intCast, if_neg (by norm_num : ¬ (1 / 10000000 : ℚ) < 0)]
  decide

/-- Value of the example price `0.013` under `"%.8f"`. -/
theorem pyFormat8_price_example : pyFormat8 (13 / 1000 : ℚ) = "0.01300000" := by
  have h : |(13 / 1000 : ℚ)| * 100000000 = ((1300000 : ℤ) : ℚ) := by
    rw [abs_of_pos (by norm_num)]; norm_num
  unfold pyFormat8 fmt8Chars
  rw [h, roundHalfEven_intCast, if_neg (by norm_num : ¬ (13 / 1000 : ℚ) < 0)]
  decide

/-! The claim theorems. -/

/-- C6: when `client_ord_id` is supplied, `create_new_order` uses exactly
that value; when omitted, the field is a generated integer in the nonce
range `[1, 4294967290]`. -/
theorem claim_C6 (c : CoinutAPI) (inst_id : Int) (side : String) (qty : ℚ)
    (price : Option ℚ) (cid : Int) (seed : Nat) :
    getKey (c.create_new_order inst_id side qty price (some cid) seed) "client_ord_id"
      = some (Json.int cid)
    ∧ getKey (c.create_new_order inst_id side qty price none seed) "client_ord_id"
      = some (Json.int (randint seed 1 nonceMax))
    ∧ 1 ≤ randint seed 1 nonceMax ∧ randint seed 1 nonceMax ≤ 4294967290 := by
  refine ⟨?_, ?_, (randint_nonce_bounds seed).1, (randint_nonce_bounds seed).2⟩
  · cases price <;> exact getKey_dictSet_self _ _ _
  · cases price <;> exact getKey_dictSet_self _ _ _

/-- C7: the built order carries a `price` key exactly when a price was
given (absence denoting a market order), and then its value is the
8-decimal fixed point rendering of the argument. -/
theorem claim_C7 (c : CoinutAPI) (inst_id : Int) (side : String) (qty : ℚ)
    (pr : ℚ) (cid : Option Int) (seed : Nat) :
    getKey (c.create_new_order inst_id side qty (some pr) cid seed) "price"
      = some (Json.str (pyFormat8 pr))
    ∧ getKey (c.create_new_order inst_id side qty none cid seed) "price" = none := by
  constructor
  · cases cid with
    | some cid0 =>
      show getKey (dictSet (dictSet _ "price" _) "client_ord_id" _) "price" = _
      rw [getKey_dictSet_other _ _ _ _ (by decide)]
      exact getKey_dictSet_self _ _ _
    | none =>
      show getKey (dictSet (dictSet _ "price" _) "client_ord_id" _) "price" = _
      rw [getKey_dictSet_other _ _ _ _ (by decide)]
      exact getKey_dictSet_self _ _ _
  · cases cid with
    | some cid0 =>
      show getKey (dictSet [("inst_id", Json.int inst_id), ("side", Json.str side),
        ("qty", Json.str (pyFormat8 qty))] "client_ord_id" _) "price" = none
      rw [getKey_dictSet_other _ _ _ _ (by decide)]
      simp [getKey]
    | none =>
      show getKey (dictSet [("inst_id", Json.int inst_id), ("side", Json.str side),
        ("qty", Json.str (pyFormat8 qty))] "client_ord_id" _) "price" = none
      rw [getKey_dictSet_other _ _ _ _ (by decide)]
      simp [getKey]

/-- C10: the dispatch primitive overwrites any caller-supplied `request`
or `nonce` entry with the invoked method name and the freshly generated
nonce before serializing, so the dispatched body's two reserved fields
are never caller-controlled; `submit_new_order` forwards the built order
dict through this primitive. -/
theorem claim_C10 (c : CoinutAPI) (net : HttpRequest → Json) (api : String)
    (content : List (String × Json)) (inst_id : Int) (side : String) (qty : ℚ)
    (price : Option ℚ) (cid : Option Int) (s1 s2 seed : Nat) :
    getKey (c.request api content seed).1 "request" = some (Json.str api)
    ∧ getKey (c.request api content seed).1 "nonce"
        = some (Json.int (randint seed 1 nonceMax))
    ∧ (c.request api content seed).2.body = dumps (Json.obj (c.request api content seed).1)
    ∧ c.submit_new_order net inst_id side qty price cid s1 s2
        = net (c.request "new_order" (c.create_new_order inst_id side qty price cid s1) s2).2 := by
  refine ⟨?_, ?_, rfl, rfl⟩
  · show getKey (dictSet (dictSet content "request" _) "nonce" _) "request" = _
    rw [getKey_dictSet_other _ _ _ _ (by decide)]
    exact getKey_dictSet_self _ _ _
  · exact getKey_dictSet_self _ _ _

/-- C9: `request` inserts the reserved keys into the caller's mapping in
place (the mutated mapping is handed back with the request), and a call
omitting `content` mutates the one shared default dict, which the next
such call receives non-empty instead of fresh. -/
theorem claim_C9 (c c2 : CoinutAPI) (api api2 : String)
    (content : List (String × Json)) (s1 s2 : Nat) :
    (c.request api content s1).1
      = dictSet (dictSet content "request" (Json.str api)) "nonce"
          (Json.int (randint s1 1 nonceMax))
    ∧ (c.requestNoContent api s1 initPyState).1.requestDefault
        = [("request", Json.str api), ("nonce", Json.int (randint s1 1 nonceMax))]
    ∧ (c.requestNoContent api s1 initPyState).1.requestDefault ≠ []
    ∧ (c2.requestNoContent api2 s2 (c.requestNoContent api s1 initPyState).1).2
        = (c2.request api2
            [("request", Json.str api), ("nonce", Json.int (randint s1 1 nonceMax))] s2).2 := by
  have h2 : (c.requestNoContent api s1 initPyState).1.requestDefault
      = [("request", Json.str api), ("nonce", Json.int (randint s1 1 nonceMax))] := by
    show (c.request api [] s1).1 = _
    rw [request_fresh c api [] s1 (by simp) (by simp)]
    rfl
  refine ⟨rfl, h2, by rw [h2]; simp, ?_⟩
  show (c2.request api2 (c.requestNoContent api s1 initPyState).1.requestDefault s2).2 = _
  rw [h2]

/-- C2: every dispatched body is the serialization of a dict holding
exactly one `request` entry naming the operation and exactly one `nonce`
entry with a fresh value in `[1, 4294967290]`, and no check constrains a
nonce against earlier calls — a colliding nonce yields the same request
unimpeded. -/
theorem claim_C2 (c : CoinutAPI) (api : String) (content : List (String × Json))
    (seed s1 s2 : Nat) (h : (content.map Prod.fst).Nodup) :
    (c.request api content seed).2.body = dumps (Json.obj (c.request api content seed).1)
    ∧ countKey (c.request api content seed).1 "request" = 1
    ∧ getKey (c.request api content seed).1 "request" = some (Json.str api)
    ∧ countKey (c.request api content seed).1 "nonce" = 1
    ∧ getKey (c.request api content seed).1 "nonce" = some (Json.int (randint seed 1 nonceMax))
    ∧ 1 ≤ randint seed 1 nonceMax ∧ randint seed 1 nonceMax ≤ 4294967290
    ∧ (randint s1 1 nonceMax = randint s2 1 nonceMax →
        c.request api content s1 = c.request api content s2) := by
  refine ⟨rfl, ?_, ?_, ?_, ?_,
    (randint_nonce_bounds seed).1, (randint_nonce_bounds seed).2, ?_⟩
  · show countKey (dictSet (dictSet content "request" _) "nonce" _) "request" = 1
    rw [countKey_dictSet_other _ _ _ _ (by decide)]
    exact countKey_dictSet_self _ _ _ h
  · show getKey (dictSet (dictSet content "request" _) "nonce" _) "request" = _
    rw [getKey_dictSet_other _ _ _ _ (by decide)]
    exact getKey_dictSet_self _ _ _
  · exact countKey_dictSet_self _ _ _ (nodup_keys_dictSet _ _ _ h)
  · exact getKey_dictSet_self _ _ _
  · intro he
    unfold CoinutAPI.request
    rw [he]

/-- Witness for C2 at a concrete call. -/
theorem claim_C2_witness :
    ((CoinutAPI.mk none none).request "inst_list" [("sec_type", Json.str "SPOT")] 5).2.body
      = dumps (Json.obj
          ((CoinutAPI.mk none none).request "inst_list" [("sec_type", Json.str "SPOT")] 5).1)
    ∧ countKey ((CoinutAPI.mk none none).request "inst_list"
        [("sec_type", Json.str "SPOT")] 5).1 "request" = 1
    ∧ getKey ((CoinutAPI.mk none none).request "inst_list"
        [("sec_type", Json.str "SPOT")] 5).1 "request" = some (Json.str "inst_list")
    ∧ countKey ((CoinutAPI.mk none none).request "inst_list"
        [("sec_type", Json.str "SPOT")] 5).1 "nonce" = 1
    ∧ getKey ((CoinutAPI.mk none none).request "inst_list"
        [("sec_type", Json.str "SPOT")] 5).1 "nonce" = some (Json.int (randint 5 1 nonceMax))
    ∧ 1 ≤ randint 5 1 nonceMax ∧ randint 5 1 nonceMax ≤ 4294967290
    ∧ (randint 6 1 nonceMax = randint 7 1 nonceMax →
        (CoinutAPI.mk none none).request "inst_list" [("sec_type", Json.str "SPOT")] 6
          = (CoinutAPI.mk none none).request "inst_list" [("sec_type", Json.str "SPOT")] 7) :=
  claim_C2 (CoinutAPI.mk none none) "inst_list" [("sec_type", Json.str "SPOT")] 5 6 7 (by decide)

/-- C8: no local validation and no local failure before dispatch —
`create_new_order` accepts any `side` string unexamined, and the batch
operations build and dispatch full requests for order and id lists of
every length (nothing caps them at 1000). -/
theorem claim_C8 (c : CoinutAPI) (net : HttpRequest → Json) (inst_id : Int)
    (side : String) (qty : ℚ) (price : Option ℚ) (cid : Option Int)
    (ords : List Json) (ids : List Int) (seed : Nat) :
    getKey (c.create_new_order inst_id side qty price cid seed) "side" = some (Json.str side)
    ∧ c.submit_new_orders net ords seed
        = net ⟨coinutURL,
            signedHeaders c (dumps (Json.obj
              [("orders", Json.arr ords), ("request", Json.str "new_orders"),
               ("nonce", Json.int (randint seed 1 nonceMax))])),
            dumps (Json.obj
              [("orders", Json.arr ords), ("request", Json.str "new_orders"),
               ("nonce", Json.int (randint seed 1 nonceMax))])⟩
    ∧ c.cancel_orders net inst_id ids seed
        = net ⟨coinutURL,
            signedHeaders c (dumps (Json.obj
              [("entries", Json.arr (ids.map (fun x =>
                  Json.obj [("inst_id", Json.int inst_id), ("order_id", Json.int x)]))),
               ("request", Json.str "cancel_orders"),
               ("nonce", Json.int (randint seed 1 nonceMax))])),
            dumps (Json.obj
              [("entries", Json.arr (ids.map (fun x =>
                  Json.obj [("inst_id", Json.int inst_id), ("order_id", Json.int x)]))),
               ("request", Json.str "cancel_orders"),
               ("nonce", Json.int (randint seed 1 nonceMax))])⟩
    ∧ (ids.map (fun x =>
        Json.obj [("inst_id", Json.int inst_id), ("order_id", Json.int x)])).length
        = ids.length := by
  refine ⟨?_, ?_, ?_, by rw [List.length_map]⟩
  · cases price with
    | none =>
      cases cid with
      | none =>
        show getKey (dictSet _ "client_ord_id" _) "side" = _
        rw [getKey_dictSet_other _ _ _ _ (by decide)]
        simp [getKey]
      | some cid0 =>
        show getKey (dictSet _ "client_ord_id" _) "side" = _
        rw [getKey_dictSet_other _ _ _ _ (by decide)]
        simp [getKey]
    | some pr =>
      cases cid with
      | none =>
        show getKey (dictSet (dictSet _ "price" _) "client_ord_id" _) "side" = _
        rw [getKey_dictSet_other _ _ _ _ (by decide),
          getKey_dictSet_other _ _ _ _ (by decide)]
        simp [getKey]
      | some cid0 =>
        show getKey (dictSet (dictSet _ "price" _) "client_ord_id" _) "side" = _
        rw [getKey_dictSet_other _ _ _ _ (by decide),
          getKey_dictSet_other _ _ _ _ (by decide)]
        simp [getKey]
  · unfold CoinutAPI.submit_new_orders
    rw [request_fresh c "new_orders" _ seed
      (by
        intro p hp
        rw [List.mem_singleton] at hp
        subst hp
        show ("orders" : String) ≠ "request"
        decide)
      (by
        intro p hp
        rw [List.mem_singleton] at hp
        subst hp
        show ("orders" : String) ≠ "nonce"
        decide)]
    rfl
  · unfold CoinutAPI.cancel_orders
    dsimp only
    rw [request_fresh c "cancel_orders" _ seed
      (by
        intro p hp
        rw [List.mem_singleton] at hp
        subst hp
        show ("entries" : String) ≠ "request"
        decide)
      (by
        intro p hp
        rw [List.mem_singleton] at hp
        subst hp
        show ("entries" : String) ≠ "nonce"
        decide)]
    rfl

/-- C1: when both credentials are set at construction the dispatched
request carries `X-USER` (the username) and `X-SIGNATURE` (the lowercase
hex HMAC-SHA256 of the exact serialized body bytes keyed by the api key);
when either one is absent, it carries no headers at all. -/
theorem claim_C1 (c : CoinutAPI) (api : String) (content : List (String × Json))
    (seed : Nat) (u key : String) :
    (c.user = some u → c.api_key = some key →
      (c.request api content seed).2.headers
        = [("X-USER", u),
           ("X-SIGNATURE", hexLower (hmacSha256 (strBytes key)
             (strBytes ((c.request api content seed).2.body))))]
      ∧ ∀ ch ∈ (hexLower (hmacSha256 (strBytes key)
          (strBytes ((c.request api content seed).2.body)))).data,
          ch.isDigit = true ∨ ('a' ≤ ch ∧ ch ≤ 'f'))
    ∧ ((c.user = none ∨ c.api_key = none) →
        (c.request api content seed).2.headers = []) := by
  rcases c with ⟨cu, ck⟩
  constructor
  · intro hu hk
    simp only at hu hk
    subst hu
    subst hk
    exact ⟨rfl, hexLower_chars _⟩
  · intro h
    rcases h with h | h <;> simp only at h <;> subst h
    · cases ck <;> rfl
    · cases cu <;> rfl

/-- Witness for C1: a credentialed client gets exactly the two auth
headers with the HMAC signature, an uncredentialed one gets none. -/
theorem claim_C1_witness :
    ((CoinutAPI.mk (some "trader") (some "topsecret")).request "user_balance" [] 7).2.headers
      = [("X-USER", "trader"),
         ("X-SIGNATURE", hexLower (hmacSha256 (strBytes "topsecret")
           (strBytes (((CoinutAPI.mk (some "trader") (some "topsecret")).request
              "user_balance" [] 7).2.body))))]
    ∧ ((CoinutAPI.mk none none).request "user_balance" [] 7).2.headers = [] :=
  ⟨((claim_C1 (CoinutAPI.mk (some "trader") (some "topsecret"))
      "user_balance" [] 7 "trader" "topsecret").1 rfl rfl).1,
   (claim_C1 (CoinutAPI.mk none none) "user_balance" [] 7 "x" "y").2 (Or.inl rfl)⟩

/-- C5: with a pair argument, `get_spot_instruments` returns the first
(single) instrument dict under that pair key inside the `SPOT` mapping of
the response; with no argument it returns the whole `SPOT` mapping
unchanged. -/
theorem claim_C5 (c : CoinutAPI) (net : HttpRequest → Json) (seed : Nat)
    (p : String) (resp spot pv d : Json)
    (hresp : net (c.request "inst_list" [("sec_type", Json.str "SPOT")] seed).2 = resp)
    (hspot : resp.getField "SPOT" = some spot)
    (hpair : spot.getField p = some pv)
    (hidx : pv.getIdx 0 = some d) :
    c.get_spot_instruments net (some p) seed = some d
    ∧ c.get_spot_instruments net none seed = some spot := by
  constructor
  · simp [CoinutAPI.get_spot_instruments, hresp, hspot, hpair, hidx]
  · unfold CoinutAPI.get_spot_instruments
    dsimp only
    rw [hresp]
    exact hspot

/-- Witness for C5 on a concrete response shape. -/
theorem claim_C5_witness :
    (CoinutAPI.mk none none).get_spot_instruments
        (fun _ => Json.obj [("SPOT", Json.obj [("BTCUSDT",
          Json.arr [Json.obj [("inst_id", Json.int 1)]])])])
        (some "BTCUSDT") 3
      = some (Json.obj [("inst_id", Json.int 1)])
    ∧ (CoinutAPI.mk none none).get_spot_instruments
        (fun _ => Json.obj [("SPOT", Json.obj [("BTCUSDT",
          Json.arr [Json.obj [("inst_id", Json.int 1)]])])])
        none 3
      = some (Json.obj [("BTCUSDT", Json.arr [Json.obj [("inst_id", Json.int 1)]])]) :=
  claim_C5 (CoinutAPI.mk none none)
    (fun _ => Json.obj [("SPOT", Json.obj [("BTCUSDT",
      Json.arr [Json.obj [("inst_id", Json.int 1)]])])])
    3 "BTCUSDT"
    (Json.obj [("SPOT", Json.obj [("BTCUSDT", Json.arr [Json.obj [("inst_id", Json.int 1)]])])])
    (Json.obj [("BTCUSDT", Json.arr [Json.obj [("inst_id", Json.int 1)]])])
    (Json.arr [Json.obj [("inst_id", Json.int 1)]])
    (Json.obj [("inst_id", Json.int 1)])
    rfl rfl rfl rfl

/-- C4: the documented example order — quantity `0.0000001` and price
`0.013` — builds exactly the five-field dict with the fixed point strings
`"0.00000010"` and `"0.01300000"` and a generated `client_ord_id` in
`[1, 4294967290]`; being a pure builder it performs no dispatch. -/
theorem claim_C4 (c : CoinutAPI) (seed : Nat) :
    c.create_new_order 1 "BUY" (1 / 10000000) (some (13 / 1000)) none seed
      = [("inst_id", Json.int 1), ("side", Json.str "BUY"),
         ("qty", Json.str "0.00000010"), ("price", Json.str "0.01300000"),
         ("client_ord_id", Json.int (randint seed 1 nonceMax))]
    ∧ 1 ≤ randint seed 1 nonceMax ∧ randint seed 1 nonceMax ≤ 4294967290 := by
  refine ⟨?_, (randint_nonce_bounds seed).1, (randint_nonce_bounds seed).2⟩
  show dictSet (dictSet [("inst_id", Json.int 1), ("side", Json.str "BUY"),
      ("qty", Json.str (pyFormat8 (1 / 10000000)))] "price"
      (Json.str (pyFormat8 (13 / 1000)))) "client_ord_id"
      (Json.int (randint seed 1 nonceMax)) = _
  rw [pyFormat8_qty_example, pyFormat8_price_example]
  rw [dictSet_fresh _ _ _ (by decide)]
  rw [dictSet_fresh _ _ _ (by decide)]
  rfl

/-- C3 (amended): every formatted quantity or price has exactly eight
digits after its single decimal point and never uses scientific notation;
the parse-back round trip holds for the inputs that are exact multiples
of `10 ^ (-8)` (such as the spec's `0.0000001`), but not for every input. -/
theorem claim_C3_amended (q : ℚ) :
    (∃ a b, (pyFormat8 q).data = a ++ '.' :: b ∧ b.length = 8 ∧
      (∀ ch ∈ b, ch.isDigit = true) ∧ (∀ ch ∈ a, ch.isDigit = true ∨ ch = '-'))
    ∧ ((∃ k : ℤ, q = (k : ℚ) / 100000000) →
        fixed8Val ((pyFormat8 q).data) = q) := by
  constructor
  · exact fmt8Chars_structure q
  · rintro ⟨k, rfl⟩
    exact fixed8Val_fmt8_div8 k

/-- Counterexample to C3 as stated: `0.123456789` formats to
`"0.12345679"`, which does not parse back to the input value. -/
theorem claim_C3_counterexample :
    fixed8Val ((pyFormat8 ((123456789 : ℚ) / 1000000000)).data)
      ≠ (123456789 : ℚ) / 1000000000 := by
  have hfl : rfloor ((123456789 : ℚ) / 10) = 12345678 := by
    rw [rfloor_eq_floor]
    apply Int.floor_eq_iff.mpr
    constructor <;> norm_num
  have hrh : roundHalfEven ((123456789 : ℚ) / 10) = 12345679 := by
    unfold roundHalfEven
    rw [hfl]
    dsimp only
    rw [if_neg (by norm_num), if_pos (by norm_num)]
    decide
  have habs : |(123456789 : ℚ) / 1000000000| * 100000000 = (123456789 : ℚ) / 10 := by
    rw [abs_of_pos (by norm_num)]
    norm_num
  have hm : (roundHalfEven (|(123456789 : ℚ) / 1000000000| * 100000000)).toNat = 12345679 := by
    rw [habs, hrh]
    rfl
  have hfmt : fmt8Chars ((123456789 : ℚ) / 1000000000)
      = natToDec (12345679 / 100000000)
        ++ '.' :: padZeros 8 (natToDec (12345679 % 100000000)) := by
    simp only [fmt8Chars]
    rw [hm, if_neg (by norm_num : ¬ ((123456789 : ℚ) / 1000000000) < 0)]
    simp
  show fixed8Val (fmt8Chars ((123456789 : ℚ) / 1000000000)) ≠ _
  rw [hfmt, fixed8Val_ip_fp _ _ (by norm_num)]
  have h0 : (12345679 / 100000000 : ℕ) = 0 := by norm_num
  have h1 : (12345679 % 100000000 : ℕ) = 12345679 := by norm_num
  rw [h0, h1]
  norm_num

/-- Witness for C3 (amended) at the spec's own example input. -/
theorem claim_C3_witness :
    (∃ k : ℤ, (1 : ℚ) / 10000000 = (k : ℚ) / 100000000)
    ∧ fixed8Val ((pyFormat8 ((1 : ℚ) / 10000000)).data) = (1 : ℚ) / 10000000 :=
  ⟨⟨10, by norm_num⟩, (claim_C3_amended ((1 : ℚ) / 10000000)).2 ⟨10, by norm_num⟩⟩
